import Mathlib

/-!
Verification of the CHIP-8 interpreter (`src/chip.rs`, `src/screen/tui.rs`)
against its natural-language specification.

The machine state, register file, screen and the instruction step function
are shallowly embedded below.  Machine integers are modelled as `Nat` with
explicit `% 2^w` at the points where the Rust code performs wrapping
arithmetic or an `as` cast; Rust code that can panic (array indexing out of
bounds, stack-pointer underflow, unknown opcodes) is modelled with
`Except ChipError`.
-/

namespace Chip8

/-- Modelled from the spec: the constants live in `config.rs`, which is not
part of the provided sources.  Spec §6 fixes the canonical values
(4096, 0x200, 0x50, 64×32). Memory size in bytes. -/
def MEMSIZE : Nat := 4096

/-- Modelled from the spec: screen width in pixels (canonical 64). -/
def SCREEN_WIDTH : Nat := 64

/-- Modelled from the spec: screen height in pixels (canonical 32). -/
def SCREEN_HEIGHT : Nat := 32

/-- Modelled from the spec: start of the font table (canonical 0x50). -/
def FONT_POS_START : Nat := 0x50

/-- Modelled from the spec: program load offset (canonical 0x200). -/
def PROG_POS_START : Nat := 0x200

/-- Errors corresponding to the panics the Rust code can raise during one
instruction step: unknown opcode (`panic!("Illegal instruction {val}")`,
carrying the raw word), array index out of bounds on `memory`, stack slot
index out of bounds, and stack-pointer underflow (`self.stackpointer -= 1`
overflowing below zero). -/
inductive ChipError where
  | IllegalInstruction (word : Nat)
  | OutOfBounds (addr : Nat)
  | StackOverflow (sp : Nat)
  | StackUnderflow
deriving DecidableEq, Repr

/-- The register file of `chip.rs`: sixteen 8-bit registers `v0`..`vf` and
the 16-bit address register `i`.  Values are `Nat`s; every write performed
by the step function stores a value already reduced mod 256. -/
structure Register where
  v0 : Nat
  v1 : Nat
  v2 : Nat
  v3 : Nat
  v4 : Nat
  v5 : Nat
  v6 : Nat
  v7 : Nat
  v8 : Nat
  v9 : Nat
  va : Nat
  vb : Nat
  vc : Nat
  vd : Nat
  ve : Nat
  vf : Nat
  i : Nat

/-- `Register::set_reg_v`.  The Rust source panics on `reg > 0xF`; that arm
is unreachable from `execute_inst`, which only ever passes 4-bit nibbles or
the literal `0xF`, so it is modelled as a no-op here. -/
def Register.set_reg_v (regs : Register) (reg : Nat) (val : Nat) : Register :=
  match reg with
  | 0x0 => { regs with v0 := val }
  | 0x1 => { regs with v1 := val }
  | 0x2 => { regs with v2 := val }
  | 0x3 => { regs with v3 := val }
  | 0x4 => { regs with v4 := val }
  | 0x5 => { regs with v5 := val }
  | 0x6 => { regs with v6 := val }
  | 0x7 => { regs with v7 := val }
  | 0x8 => { regs with v8 := val }
  | 0x9 => { regs with v9 := val }
  | 0xa => { regs with va := val }
  | 0xb => { regs with vb := val }
  | 0xc => { regs with vc := val }
  | 0xd => { regs with vd := val }
  | 0xe => { regs with ve := val }
  | 0xf => { regs with vf := val }
  | _ => regs

/-- `Register::get_reg_v`.  The Rust source panics on `reg > 0xF`; as for
`set_reg_v` that arm is unreachable from `execute_inst` and is modelled by
returning 0. -/
def Register.get_reg_v (regs : Register) (reg : Nat) : Nat :=
  match reg with
  | 0x0 => regs.v0
  | 0x1 => regs.v1
  | 0x2 => regs.v2
  | 0x3 => regs.v3
  | 0x4 => regs.v4
  | 0x5 => regs.v5
  | 0x6 => regs.v6
  | 0x7 => regs.v7
  | 0x8 => regs.v8
  | 0x9 => regs.v9
  | 0xA => regs.va
  | 0xB => regs.vb
  | 0xC => regs.vc
  | 0xD => regs.vd
  | 0xE => regs.ve
  | 0xF => regs.vf
  | _ => 0

/-- The terminal screen backend (`Tui` in `screen/tui.rs`): a pixel bitmap
of `SCREEN_WIDTH * SCREEN_HEIGHT` booleans, indexed by `x + y * SCREEN_WIDTH`.
The fixed-size Rust array is modelled as a function; `set_pixel` only ever
writes indices below `SCREEN_WIDTH * SCREEN_HEIGHT`, so the array indexing
never goes out of bounds in the source. -/
structure Tui where
  pixel_bitmap : Nat → Bool

/-- `Tui::set_pixel`: clips out-of-bounds coordinates (returning `false`),
otherwise XORs `val` into the pixel and returns `true` exactly when a
previously set pixel became unset. -/
def Tui.set_pixel (t : Tui) (x y : Nat) (val : Bool) : Tui × Bool :=
  -- Clip out of bounds
  if SCREEN_WIDTH ≤ x ∨ SCREEN_HEIGHT ≤ y then (t, false)
  else
    let idx := x + y * SCREEN_WIDTH
    let before := t.pixel_bitmap idx
    let after := xor before val
    (⟨fun j => if j = idx then after else t.pixel_bitmap j⟩, !after && before)

/-- Inner loop of `Tui::draw_sprite`: `for bit in 0..8u8`, with `bits`
instantiated at `List.range 8`.  Each bit of `line` is composited at
x-offset `bit` on row `py`. -/
def Tui.drawRowBits : Tui → Nat → Nat → Nat → List Nat → Bool → Tui × Bool
  | t, _, _, _, [], acc => (t, acc)
  | t, x0, py, line, bit :: bits, acc =>
    let r := t.set_pixel (x0 + bit) py (((line &&& (0b10000000 >>> bit)) != 0 : Bool))
    Tui.drawRowBits r.1 x0 py line bits (acc || r.2)

/-- Outer loop of `Tui::draw_sprite`: `for (iteration, line) in
sprite.iter().enumerate()`.  The row index is cast `iteration as u8`,
modelled by `iter % 256`.  (The subsequent `u8` addition `y + iteration as
u8` cannot overflow for the sprite lengths the interpreter produces, at most
15 rows, so it is modelled as plain addition.) -/
def Tui.drawRowsAux : Tui → Nat → Nat → Nat → List Nat → Bool → Tui × Bool
  | t, _, _, _, [], acc => (t, acc)
  | t, x0, y0, iter, line :: rest, acc =>
    let r := Tui.drawRowBits t x0 (y0 + iter % 256) line (List.range 8) acc
    Tui.drawRowsAux r.1 x0 y0 (iter + 1) rest r.2

/-- `Tui::draw_sprite`: wraps the starting coordinate (`x % SCREEN_WIDTH`,
`y % SCREEN_HEIGHT`) and then XOR-composites each sprite bit, returning
whether any previously set pixel was erased. -/
def Tui.draw_sprite (t : Tui) (x y : Nat) (sprite : List Nat) : Tui × Bool :=
  Tui.drawRowsAux t (x % SCREEN_WIDTH) (y % SCREEN_HEIGHT) 0 sprite false

/-- `Tui::clear_screen` (minus the terminal redraw, which is I/O). -/
def Tui.clear_screen (_ : Tui) : Tui := ⟨fun _ => false⟩

/-- `Tui::new`. -/
def Tui.new : Tui := ⟨fun _ => false⟩

/-- The machine state of `struct Chip`.  The generic display/input interface
is instantiated with the `Tui` backend from the sources; the two
side-effecting queries the step function makes of the outside world are
modelled as oracle fields:
* `keys k` models `self.interface.get_key(k)` (terminal key polling);
* `rand_byte` models `rand::thread_rng().gen_range(0..=255)`. -/
structure Chip where
  running : Bool
  memory : Nat → Nat
  pc : Nat
  registers : Register
  stack : Nat → Nat
  stackpointer : Nat
  interface : Tui
  keys : Nat → Bool
  rand_byte : Nat
  delay_timer : Nat
  sound_timer : Nat
  keyboard : Option Nat
  release_key_wait : Option Nat

/-- Reading `self.memory[addr]`: Rust array indexing panics when
`addr >= MEMSIZE` (cf. the explicit check in `Chip::get_addr`). -/
def readMem (m : Nat → Nat) (addr : Nat) : Except ChipError Nat :=
  if addr < MEMSIZE then .ok (m addr) else .error (.OutOfBounds addr)

/-- Writing `self.memory[addr] = val`: panics when `addr >= MEMSIZE`
(cf. `Chip::set_byte`). -/
def writeMem (m : Nat → Nat) (addr val : Nat) : Except ChipError (Nat → Nat) :=
  if addr < MEMSIZE then .ok (fun j => if j = addr then val else m j)
  else .error (.OutOfBounds addr)

/-- Reading `self.stack[idx]`: the stack array has 16 slots. -/
def readStack (st : Nat → Nat) (idx : Nat) : Except ChipError Nat :=
  if idx < 16 then .ok (st idx) else .error (.StackOverflow idx)

/-- Writing `self.stack[idx] = val`. -/
def writeStack (st : Nat → Nat) (idx val : Nat) : Except ChipError (Nat → Nat) :=
  if idx < 16 then .ok (fun j => if j = idx then val else st j)
  else .error (.StackOverflow idx)

/-- `Chip::new` (with the `Tui` backend and all-zero oracles). -/
def Chip.new (prog_counter : Nat) : Chip where
  running := false
  memory := fun _ => 0
  pc := prog_counter
  registers :=
    { v0 := 0, v1 := 0, v2 := 0, v3 := 0, v4 := 0, v5 := 0, v6 := 0, v7 := 0
      v8 := 0, v9 := 0, va := 0, vb := 0, vc := 0, vd := 0, ve := 0, vf := 0
      i := 0 }
  stack := fun _ => 0
  stackpointer := 0
  interface := Tui.new
  keys := fun _ => false
  rand_byte := 0
  delay_timer := 0
  sound_timer := 0
  keyboard := none
  release_key_wait := none

/-- The dispatch body of `Chip::execute_inst`, given the fetched 16-bit
instruction word `val`.  The nibbles `a`, `b`, `c`, `d` and every arm are
transcribed from the source, including its exact operand arithmetic (the
un-shifted `b | c | d` jump targets, the `(b >> 8) as u8` register index in
`0x7xkk`, the `(c | d) as u8` immediates, and the `(c >> 4) | d` sub-keys of
the `0xE`/`0xF` families).  The Rust `match` statements are rendered as
if-chains over the same disjoint literal patterns. -/
def exec_word (s : Chip) (val : Nat) : Except ChipError Chip := do
  let a : Nat := (val &&& 0xF000) >>> 12
  let b : Nat := (val &&& 0x0F00) >>> 8
  let c : Nat := (val &&& 0x00F0) >>> 4
  let d : Nat := val &&& 0x000F
  if a = 0x0 then
    let k := (c <<< 4) ||| d
    if k = 0xE0 then
      -- Cls, Clear the screen
      pure { s with interface := s.interface.clear_screen, pc := (s.pc + 2) % 65536 }
    else if k = 0xEE then
      -- Ret, Return from subroutine
      if s.stackpointer = 0 then throw .StackUnderflow
      else do
        let sp := s.stackpointer - 1
        let ret ← readStack s.stack sp
        pure { s with stackpointer := sp, pc := (ret + 2) % 65536 }
    else
      -- Empty, Does nothing
      pure { s with pc := (s.pc + 2) % 65536 }
  else if a = 0x1 then
    -- Jmp, Jump to addr
    pure { s with pc := b ||| c ||| d }
  else if a = 0x2 then
    -- Call, Call subroutine at addr
    if s.stackpointer ≥ 16 then throw (.StackOverflow s.stackpointer)
    else do
      let st ← writeStack s.stack s.stackpointer s.pc
      pure { s with stack := st, stackpointer := (s.stackpointer + 1) % 256,
                    pc := b ||| c ||| d }
  else if a = 0x3 then
    -- Skip next inst if value in vx == byte
    let s := if s.registers.get_reg_v (b % 256) = (c ||| d) % 256
             then { s with pc := (s.pc + 2) % 65536 } else s
    pure { s with pc := (s.pc + 2) % 65536 }
  else if a = 0x4 then
    -- Skip next inst if value in vx != byte
    let s := if s.registers.get_reg_v (b % 256) ≠ (c ||| d) % 256
             then { s with pc := (s.pc + 2) % 65536 } else s
    pure { s with pc := (s.pc + 2) % 65536 }
  else if a = 0x5 then
    -- Skip if val in vx == val in vy
    let s := if s.registers.get_reg_v (b % 256) = s.registers.get_reg_v (c % 256)
             then { s with pc := (s.pc + 2) % 65536 } else s
    pure { s with pc := (s.pc + 2) % 65536 }
  else if a = 0x6 then
    -- Loads byte into vx
    pure { s with registers := s.registers.set_reg_v (b % 256) ((c ||| d) % 256),
                  pc := (s.pc + 2) % 65536 }
  else if a = 0x7 then
    -- Adds byte to vx
    let res := (s.registers.get_reg_v ((b >>> 8) % 256) + (c ||| d) % 256) % 256
    pure { s with registers := s.registers.set_reg_v (b % 256) res,
                  pc := (s.pc + 2) % 65536 }
  else if a = 0x8 then
    if d = 0x0 then
      -- Loads val of vy in vx
      let regs := s.registers.set_reg_v (b % 256) (s.registers.get_reg_v (c % 256))
      pure { s with registers := regs, pc := (s.pc + 2) % 65536 }
    else if d = 0x1 then
      -- Bitwise or of vx and vy, stores result in vx
      let v := s.registers.get_reg_v (b % 256) ||| s.registers.get_reg_v (c % 256)
      pure { s with registers := (s.registers.set_reg_v (b % 256) v).set_reg_v 0xF 0,
                    pc := (s.pc + 2) % 65536 }
    else if d = 0x2 then
      -- Bitwise and of vx and vy, stores result in vx
      let v := s.registers.get_reg_v (b % 256) &&& s.registers.get_reg_v (c % 256)
      pure { s with registers := (s.registers.set_reg_v (b % 256) v).set_reg_v 0xF 0,
                    pc := (s.pc + 2) % 65536 }
    else if d = 0x3 then
      -- Bitwise xor of vx and vy, stores result in vx
      let v := s.registers.get_reg_v (b % 256) ^^^ s.registers.get_reg_v (c % 256)
      pure { s with registers := (s.registers.set_reg_v (b % 256) v).set_reg_v 0xF 0,
                    pc := (s.pc + 2) % 65536 }
    else if d = 0x4 then
      -- Add vx and vy, result stored in vx, VF = overflow of the u8 sum
      let vx := s.registers.get_reg_v (b % 256)
      let vy := s.registers.get_reg_v (c % 256)
      let res := (vx + vy) % 256
      let vf := if 256 ≤ vx + vy then 1 else 0
      pure { s with registers := (s.registers.set_reg_v (b % 256) res).set_reg_v 0xF vf,
                    pc := (s.pc + 2) % 65536 }
    else if d = 0x5 then
      -- Subtract vy from vx, result in vx, VF = NOT borrow
      let vx := s.registers.get_reg_v (b % 256)
      let vy := s.registers.get_reg_v (c % 256)
      let res := (vx + 256 - vy) % 256
      let vf := if vx < vy then 0 else 1
      pure { s with registers := (s.registers.set_reg_v (b % 256) res).set_reg_v 0xF vf,
                    pc := (s.pc + 2) % 65536 }
    else if d = 0x6 then
      -- Shift vx right, VF set to least significant bit (reads vy)
      let v := s.registers.get_reg_v (c % 256)
      let regs := (s.registers.set_reg_v (b % 256) (v >>> 1)).set_reg_v 0xF (v &&& 0x1)
      pure { s with registers := regs, pc := (s.pc + 2) % 65536 }
    else if d = 0x7 then
      -- Subtract vx from vy, result in vx, VF = NOT borrow
      let vx := s.registers.get_reg_v (b % 256)
      let vy := s.registers.get_reg_v (c % 256)
      let res := (vy + 256 - vx) % 256
      let vf := if vy < vx then 0 else 1
      pure { s with registers := (s.registers.set_reg_v (b % 256) res).set_reg_v 0xF vf,
                    pc := (s.pc + 2) % 65536 }
    else if d = 0xE then
      -- Shift vx left, VF set to most significant bit (reads vy)
      let v := s.registers.get_reg_v (c % 256)
      let regs := (s.registers.set_reg_v (b % 256) ((v <<< 1) % 256)).set_reg_v 0xF ((v >>> 7) &&& 0x1)
      pure { s with registers := regs, pc := (s.pc + 2) % 65536 }
    else throw (.IllegalInstruction val)
  else if a = 0x9 then
    -- Skip if val in vx != val in vy
    let s := { s with pc := (s.pc + 2) % 65536 }
    if s.registers.get_reg_v (b % 256) ≠ s.registers.get_reg_v (c % 256) then
      pure { s with pc := (s.pc + 2) % 65536 }
    else pure s
  else if a = 0xA then
    -- Load addr into register I
    let regs := { s.registers with i := b ||| c ||| d }
    pure { s with registers := regs, pc := (s.pc + 2) % 65536 }
  else if a = 0xB then
    -- Jumps to addr + V0 (the Rust expression groups as b | c | (d + v0))
    pure { s with pc := b ||| c ||| (d + s.registers.get_reg_v 0x0) }
  else if a = 0xC then
    -- Moves rnd value (0-255) & byte into vx
    let v := (s.rand_byte % 256) &&& ((c ||| d) % 256)
    pure { s with registers := s.registers.set_reg_v (b % 256) v,
                  pc := (s.pc + 2) % 65536 }
  else if a = 0xD then
    -- Display d-byte sprite from memory at I at (vx, vy), VF = collision
    let buf ← (List.range d).mapM (fun k => readMem s.memory ((s.registers.i + k) % 65536))
    let r := s.interface.draw_sprite (s.registers.get_reg_v (b % 256))
               (s.registers.get_reg_v (c % 256)) buf
    let regs := if r.2 then s.registers.set_reg_v 0xF 1 else s.registers.set_reg_v 0xF 0
    pure { s with interface := r.1, registers := regs, pc := (s.pc + 2) % 65536 }
  else if a = 0xE then
    let k := (c >>> 4) ||| d
    if k = 0x9E then
      -- Skip next instruction if key with the value of vx is pressed
      let s := if s.keys (s.registers.get_reg_v (b % 256))
               then { s with pc := (s.pc + 2) % 65536 } else s
      pure { s with pc := (s.pc + 2) % 65536 }
    else if k = 0xA1 then
      -- Skip next instruction if key with the value of vx is not pressed
      let s := if !(s.keys (s.registers.get_reg_v (b % 256)))
               then { s with pc := (s.pc + 2) % 65536 } else s
      pure { s with pc := (s.pc + 2) % 65536 }
    else throw (.IllegalInstruction val)
  else if a = 0xF then
    let k := (c >>> 4) ||| d
    if k = 0x07 then
      -- Set vx to delay timer val
      pure { s with registers := s.registers.set_reg_v (b % 256) s.delay_timer,
                    pc := (s.pc + 2) % 65536 }
    else if k = 0x0A then
      -- Wait for a key press, store the value of the key in vx
      match s.release_key_wait with
      | some key =>
        if !(s.keys key) then
          pure { s with release_key_wait := none, pc := (s.pc + 2) % 65536 }
        else pure s
      | none =>
        match s.keyboard with
        | some key =>
          pure { s with registers := s.registers.set_reg_v (b % 256) key,
                        release_key_wait := some key }
        | none => pure s
    else if k = 0x15 then
      -- Set delay timer value to vx
      pure { s with delay_timer := s.registers.get_reg_v (b % 256),
                    pc := (s.pc + 2) % 65536 }
    else if k = 0x18 then
      -- Set sound timer value to vx
      pure { s with sound_timer := s.registers.get_reg_v (b % 256),
                    pc := (s.pc + 2) % 65536 }
    else if k = 0x1E then
      -- Add vx to I
      let regs := { s.registers with i := (s.registers.i + s.registers.get_reg_v (b % 256)) % 65536 }
      pure { s with registers := regs, pc := (s.pc + 2) % 65536 }
    else if k = 0x29 then
      -- Set I = location of font char for val of vx
      let x := s.registers.get_reg_v (b % 256)
      let regs := { s.registers with i := FONT_POS_START + 5 * x }
      pure { s with registers := regs, pc := (s.pc + 2) % 65536 }
    else if k = 0x33 then
      -- Store BCD representation of vx at I, I+1, I+2
      let v := s.registers.get_reg_v (b % 256)
      let m1 ← writeMem s.memory s.registers.i (v / 100)
      let m2 ← writeMem m1 ((s.registers.i + 1) % 65536) (v % 100 / 10)
      let m3 ← writeMem m2 ((s.registers.i + 2) % 65536) (v % 100 % 10)
      pure { s with memory := m3, pc := (s.pc + 2) % 65536 }
    else if k = 0x55 then
      -- Store registers v0 through vx in memory starting at location I
      let i := s.registers.i
      let m ← (List.range (b % 256 + 1)).foldlM
        (fun m x => writeMem m ((i + x) % 65536) (s.registers.get_reg_v x)) s.memory
      let regs := { s.registers with i := (i + b % 256 + 1) % 65536 }
      pure { s with memory := m, registers := regs, pc := (s.pc + 2) % 65536 }
    else if k = 0x65 then
      -- Read registers V0 through Vx from memory starting at location I
      let i := s.registers.i
      let regs ← (List.range (b % 256 + 1)).foldlM
        (fun (regs : Register) x => do
          let v ← readMem s.memory ((i + x) % 65536)
          pure (regs.set_reg_v x v)) s.registers
      let regs := { regs with i := (i + b % 256 + 1) % 65536 }
      pure { s with registers := regs, pc := (s.pc + 2) % 65536 }
    else throw (.IllegalInstruction val)
  else throw (.IllegalInstruction val)

/-- `Chip::execute_inst`: fetch the big-endian 2-byte word at `pc` and
dispatch on it. -/
def execute_inst (s : Chip) : Except ChipError Chip := do
  let hi ← readMem s.memory s.pc
  let lo ← readMem s.memory ((s.pc + 1) % 65536)
  exec_word s (0 ||| ((hi <<< 8) ||| lo))

/-- The per-frame timer update from `Chip::run`: `self.delay_timer -= 1;
self.sound_timer -= 1;` — an unconditional `u8` decrement with no floor.
A release build wraps on underflow (modelled here); a debug build panics. -/
def frame_timer_tick (s : Chip) : Chip :=
  { s with delay_timer := (s.delay_timer + 255) % 256,
           sound_timer := (s.sound_timer + 255) % 256 }

/-! ### Concrete test states -/

/-- A fresh machine at `0x200` whose memory holds the two instruction bytes
`hi`, `lo` at the program counter (all other bytes zero). -/
def progState (hi lo : Nat) : Chip :=
  { Chip.new 0x200 with
      memory := fun a => if a = 0x200 then hi else if a = 0x201 then lo else 0 }

/-- The stored result of the flag-producing `0x8` ALU arms (`d` is the low
nibble: 4 add, 5 subtract, 6 shift right, 7 reverse subtract, 0xE shift
left), as a function of the old values the arm reads. -/
def alu_res (d vx vy : Nat) : Nat :=
  if d = 4 then (vx + vy) % 256
  else if d = 5 then (vx + 256 - vy) % 256
  else if d = 6 then vy >>> 1
  else if d = 7 then (vy + 256 - vx) % 256
  else (vy <<< 1) % 256

/-- The flag value those arms write to register `0xF`, again from the old
register values. -/
def alu_flag (d vx vy : Nat) : Nat :=
  if d = 4 then (if 256 ≤ vx + vy then 1 else 0)
  else if d = 5 then (if vx < vy then 0 else 1)
  else if d = 6 then vy &&& 1
  else if d = 7 then (if vy < vx then 0 else 1)
  else (vy >>> 7) &&& 1

/-- The sprite bit that `draw_sprite`, as implemented (clipping, not
wrapping), composites onto the in-bounds pixel `(px, py)`: the bit of row
`py - y0` at horizontal offset `px - x0`, when `(px, py)` lies inside the
8-wide, `rows.length`-tall window anchored at `(x0, y0)`. -/
def spriteBit (x0 y0 : Nat) (rows : List Nat) (px py : Nat) : Bool :=
  decide (x0 ≤ px) && decide (px < x0 + 8) && decide (y0 ≤ py) &&
    decide (py < y0 + rows.length) &&
    (rows.getD (py - y0) 0 &&& (128 >>> (px - x0)) != 0)

/-! ### Decoding arithmetic -/

/-- Extracting a 4-bit field: masking with a shifted nibble mask and
shifting down is division and remainder. -/
lemma mask_shift (v sh : Nat) : (v &&& (15 <<< sh)) >>> sh = v / 2 ^ sh % 16 := by
  have h1 : (v &&& (15 <<< sh)) >>> sh = (v >>> sh) &&& 15 := by
    apply Nat.eq_of_testBit_eq
    intro i
    simp [Nat.testBit_shiftRight, Nat.testBit_and, Nat.testBit_shiftLeft]
  rw [h1, Nat.shiftRight_eq_div_pow]
  exact Nat.and_pow_two_sub_one_eq_mod _ 4

/-- Top nibble of the instruction word. -/
lemma decode_a (v : Nat) : (v &&& 0xF000) >>> 12 = v / 4096 % 16 := by
  simpa using mask_shift v 12

/-- Second nibble of the instruction word. -/
lemma decode_b (v : Nat) : (v &&& 0x0F00) >>> 8 = v / 256 % 16 := by
  simpa using mask_shift v 8

/-- Third nibble of the instruction word. -/
lemma decode_c (v : Nat) : (v &&& 0x00F0) >>> 4 = v / 16 % 16 := by
  simpa using mask_shift v 4

/-- Low nibble of the instruction word. -/
lemma decode_d (v : Nat) : v &&& 0x000F = v % 16 :=
  Nat.and_pow_two_sub_one_eq_mod v 4

/-- The big-endian word assembled by the fetch step. -/
lemma fetch_word (hi lo : Nat) (hlo : lo < 256) :
    (0 ||| ((hi <<< 8) ||| lo)) = hi * 256 + lo := by
  have h2 : hi <<< 8 = 2 ^ 8 * hi := by rw [Nat.shiftLeft_eq]; ring
  rw [Nat.zero_or, h2, ← Nat.mul_add_lt_is_or hlo]
  norm_num
  ring

/-- Unfolding the fetch when the program counter is in bounds and the second
byte is a byte value. -/
lemma execute_inst_eq (s : Chip) (h : s.pc + 1 < MEMSIZE)
    (hlo : s.memory (s.pc + 1) < 256) :
    execute_inst s = exec_word s (s.memory s.pc * 256 + s.memory (s.pc + 1)) := by
  have h0 : s.pc < MEMSIZE := by omega
  have h2 : (s.pc + 1) % 65536 = s.pc + 1 :=
    Nat.mod_eq_of_lt (by unfold MEMSIZE at h; omega)
  have h3 := fetch_word (s.memory s.pc) (s.memory (s.pc + 1)) hlo
  rw [Nat.zero_or] at h3
  simp [execute_inst, readMem, h0, h, h2, Bind.bind, Except.bind, h3]

/-- Reading back the register file after a write. -/
lemma Register.get_set (regs : Register) (r r' v : Nat) (hr : r < 16) (hr' : r' < 16) :
    (regs.set_reg_v r v).get_reg_v r' = if r' = r then v else regs.get_reg_v r' := by
  interval_cases r <;> interval_cases r' <;>
    simp [Register.set_reg_v, Register.get_reg_v]

/-- The pixel grid after `set_pixel`, pointwise: only the addressed
in-bounds pixel changes, by XOR with `val`. -/
lemma set_pixel_bitmap (t : Tui) (x y : Nat) (val : Bool) (j : Nat) :
    ((t.set_pixel x y val).1).pixel_bitmap j =
      if x < SCREEN_WIDTH ∧ y < SCREEN_HEIGHT ∧ j = x + y * SCREEN_WIDTH
      then xor (t.pixel_bitmap j) val else t.pixel_bitmap j := by
  unfold Tui.set_pixel SCREEN_WIDTH SCREEN_HEIGHT at *
  split_ifs with h1 h2 h3 <;> (simp_all; try omega)

/-- The collision output of `set_pixel`: a previously set pixel was erased
iff the write is in bounds, the incoming bit is set, and the pixel was on. -/
lemma set_pixel_snd (t : Tui) (x y : Nat) (val : Bool) :
    (t.set_pixel x y val).2 =
      if x < SCREEN_WIDTH ∧ y < SCREEN_HEIGHT
      then val && t.pixel_bitmap (x + y * SCREEN_WIDTH) else false := by
  unfold Tui.set_pixel SCREEN_WIDTH SCREEN_HEIGHT at *
  split_ifs with h1 h2 <;>
    first
      | (exfalso; omega)
      | (cases val <;> cases hpix : t.pixel_bitmap (x + y * 64) <;> simp_all)

/-- Pointwise pixel change of one sprite-row pass (`drawRowBits` with a
duplicate-free bit list): pixel `j` is XOR-toggled exactly when some bit
offset in the list addresses it in bounds with a set sprite bit. -/
lemma drawRowBits_bitmap (x0 py line : Nat) :
    ∀ (bits : List Nat), bits.Nodup → ∀ (t : Tui) (acc : Bool) (j : Nat),
    ((Tui.drawRowBits t x0 py line bits acc).1).pixel_bitmap j =
      xor (t.pixel_bitmap j)
        (decide (∃ b ∈ bits, x0 + b < SCREEN_WIDTH ∧ py < SCREEN_HEIGHT ∧
           j = x0 + b + py * SCREEN_WIDTH ∧ line &&& (128 >>> b) ≠ 0)) := by
  intro bits
  induction bits with
  | nil =>
    intro _ t acc j
    simp [Tui.drawRowBits]
  | cons b bs ih =>
    intro hnd t acc j
    obtain ⟨hb, hbs⟩ := List.nodup_cons.mp hnd
    simp only [Tui.drawRowBits]
    rw [ih hbs, set_pixel_bitmap]
    unfold SCREEN_WIDTH SCREEN_HEIGHT
    by_cases h1 : x0 + b < 64 ∧ py < 32 ∧ j = x0 + b + py * 64
    · have h2 : ¬ ∃ b' ∈ bs, x0 + b' < 64 ∧ py < 32 ∧
          j = x0 + b' + py * 64 ∧ line &&& (128 >>> b') ≠ 0 := by
        rintro ⟨b', hb', hx', hy', hj', hbit'⟩
        have hbb : b' = b := by omega
        exact hb (hbb ▸ hb')
      have h3 : (∃ b' ∈ b :: bs, x0 + b' < 64 ∧ py < 32 ∧
          j = x0 + b' + py * 64 ∧ line &&& (128 >>> b') ≠ 0)
          ↔ line &&& (128 >>> b) ≠ 0 := by
        constructor
        · rintro ⟨b', hb', hx', hy', hj', hbit'⟩
          rcases List.mem_cons.mp hb' with hb'' | hb''
          · exact hb'' ▸ hbit'
          · exact absurd ⟨b', hb'', hx', hy', hj', hbit'⟩ h2
        · intro hbit
          exact ⟨b, List.mem_cons_self b bs, h1.1, h1.2.1, h1.2.2, hbit⟩
      rw [if_pos h1, decide_eq_false h2, Bool.xor_false]
      by_cases hbit : line &&& (128 >>> b) = 0
      · rw [decide_eq_false (fun hc => (h3.mp hc) hbit)]
        simp [hbit]
      · rw [decide_eq_true (h3.mpr hbit)]
        have hv : ((line &&& (128 >>> b)) != 0) = true := by
          simp only [bne_iff_ne, ne_eq]
          exact hbit
        rw [hv]
    · have h4 : (∃ b' ∈ b :: bs, x0 + b' < 64 ∧ py < 32 ∧
          j = x0 + b' + py * 64 ∧ line &&& (128 >>> b') ≠ 0)
          ↔ (∃ b' ∈ bs, x0 + b' < 64 ∧ py < 32 ∧
          j = x0 + b' + py * 64 ∧ line &&& (128 >>> b') ≠ 0) := by
        constructor
        · rintro ⟨b', hb', hx', hy', hj', hbit'⟩
          rcases List.mem_cons.mp hb' with hb'' | hb''
          · exact absurd ⟨hb'' ▸ hx', hy', hb'' ▸ hj'⟩ h1
          · exact ⟨b', hb'', hx', hy', hj', hbit'⟩
        · rintro ⟨b', hb', hx', hy', hj', hbit'⟩
          exact ⟨b', List.mem_cons_of_mem b hb', hx', hy', hj', hbit'⟩
      rw [if_neg h1]
      by_cases hex : ∃ b' ∈ bs, x0 + b' < 64 ∧ py < 32 ∧
          j = x0 + b' + py * 64 ∧ line &&& (128 >>> b') ≠ 0
      · rw [decide_eq_true hex, decide_eq_true (h4.mpr hex)]
      · rw [decide_eq_false hex, decide_eq_false (fun hc => hex (h4.mp hc))]

/-- Collision accumulation of one sprite-row pass: the accumulator ends true
iff it started true or some in-bounds set sprite bit landed on an already-lit
pixel of the grid as it was at the start of the pass. -/
lemma drawRowBits_snd (x0 py line : Nat) :
    ∀ (bits : List Nat), bits.Nodup → ∀ (t : Tui) (acc : Bool),
    (Tui.drawRowBits t x0 py line bits acc).2 =
      (acc || decide (∃ b ∈ bits, x0 + b < SCREEN_WIDTH ∧ py < SCREEN_HEIGHT ∧
        line &&& (128 >>> b) ≠ 0 ∧
        t.pixel_bitmap (x0 + b + py * SCREEN_WIDTH) = true)) := by
  intro bits
  induction bits with
  | nil =>
    intro _ t acc
    simp [Tui.drawRowBits]
  | cons b bs ih =>
    intro hnd t acc
    obtain ⟨hb, hbs⟩ := List.nodup_cons.mp hnd
    simp only [Tui.drawRowBits]
    rw [ih hbs, set_pixel_snd]
    unfold SCREEN_WIDTH SCREEN_HEIGHT
    have h5 : (∃ b' ∈ bs, x0 + b' < 64 ∧ py < 32 ∧ line &&& (128 >>> b') ≠ 0 ∧
        ((t.set_pixel (x0 + b) py ((line &&& (128 >>> b)) != 0)).1).pixel_bitmap
          (x0 + b' + py * 64) = true)
        ↔ (∃ b' ∈ bs, x0 + b' < 64 ∧ py < 32 ∧ line &&& (128 >>> b') ≠ 0 ∧
        t.pixel_bitmap (x0 + b' + py * 64) = true) := by
      apply exists_congr
      intro b'
      apply and_congr_right
      intro hb'
      have hne : b' ≠ b := fun he => hb (he ▸ hb')
      rw [set_pixel_bitmap]
      unfold SCREEN_WIDTH SCREEN_HEIGHT
      rw [if_neg (by rintro ⟨-, -, hj⟩; omega)]
    have h6 : (∃ b' ∈ b :: bs, x0 + b' < 64 ∧ py < 32 ∧
        line &&& (128 >>> b') ≠ 0 ∧ t.pixel_bitmap (x0 + b' + py * 64) = true)
        ↔ ((x0 + b < 64 ∧ py < 32 ∧ line &&& (128 >>> b) ≠ 0 ∧
            t.pixel_bitmap (x0 + b + py * 64) = true) ∨
           (∃ b' ∈ bs, x0 + b' < 64 ∧ py < 32 ∧
            line &&& (128 >>> b') ≠ 0 ∧ t.pixel_bitmap (x0 + b' + py * 64) = true)) := by
      constructor
      · rintro ⟨b', hb', hrest⟩
        rcases List.mem_cons.mp hb' with hb'' | hb''
        · exact Or.inl (hb'' ▸ hrest)
        · exact Or.inr ⟨b', hb'', hrest⟩
      · rintro (h | ⟨b', hb', hrest⟩)
        · exact ⟨b, List.mem_cons_self b bs, h⟩
        · exact ⟨b', List.mem_cons_of_mem b hb', hrest⟩
    by_cases hex : ∃ b' ∈ bs, x0 + b' < 64 ∧ py < 32 ∧
        line &&& (128 >>> b') ≠ 0 ∧ t.pixel_bitmap (x0 + b' + py * 64) = true
    · rw [decide_eq_true (h5.mpr hex), decide_eq_true (h6.mpr (Or.inr hex))]
      simp
    · rw [decide_eq_false (fun hc => hex (h5.mp hc))]
      by_cases hA : x0 + b < 64 ∧ py < 32 ∧ line &&& (128 >>> b) ≠ 0 ∧
          t.pixel_bitmap (x0 + b + py * 64) = true
      · rw [decide_eq_true (h6.mpr (Or.inl hA)), if_pos ⟨hA.1, hA.2.1⟩, hA.2.2.2]
        have hv : ((line &&& (128 >>> b)) != 0) = true := by simp [hA.2.2.1]
        rw [hv]
        simp
      · have hne : decide (∃ b' ∈ b :: bs, x0 + b' < 64 ∧ py < 32 ∧
            line &&& (128 >>> b') ≠ 0 ∧
            t.pixel_bitmap (x0 + b' + py * 64) = true) = false := by
          apply decide_eq_false
          intro hc
          rcases h6.mp hc with h | h
          · exact hA h
          · exact hex h
        rw [hne]
        have hr2 : (if x0 + b < 64 ∧ py < 32
            then ((line &&& (128 >>> b)) != 0) &&
              t.pixel_bitmap (x0 + b + py * 64) else false) = false := by
          split_ifs with hin
          · by_cases hbit : line &&& (128 >>> b) = 0
            · simp [hbit]
            · by_cases hpix : t.pixel_bitmap (x0 + b + py * 64) = true
              · exact absurd ⟨hin.1, hin.2, hbit, hpix⟩ hA
              · simp only [Bool.not_eq_true] at hpix
                simp [hpix]
          · rfl
        rw [hr2]
        simp

/-- Pointwise pixel change of the whole sprite pass (`drawRowsAux`): pixel
`j` is XOR-toggled exactly when some row `r` and bit offset `b` of the
sprite address it in bounds with a set bit.  The bound on `iter` keeps the
`u8` cast of the row index the identity. -/
lemma drawRowsAux_bitmap (x0 y0 : Nat) :
    ∀ (rows : List Nat) (iter : Nat), iter + rows.length ≤ 256 →
    ∀ (t : Tui) (acc : Bool) (j : Nat),
    ((Tui.drawRowsAux t x0 y0 iter rows acc).1).pixel_bitmap j =
      xor (t.pixel_bitmap j)
        (decide (∃ r < rows.length, ∃ b < 8, x0 + b < SCREEN_WIDTH ∧
           y0 + (iter + r) < SCREEN_HEIGHT ∧
           j = x0 + b + (y0 + (iter + r)) * SCREEN_WIDTH ∧
           rows.getD r 0 &&& (128 >>> b) ≠ 0)) := by
  intro rows
  induction rows with
  | nil =>
    intro iter _ t acc j
    simp [Tui.drawRowsAux]
  | cons line rest ih =>
    intro iter hiter t acc j
    simp only [Tui.drawRowsAux, List.length_cons] at hiter ⊢
    have hmod : iter % 256 = iter := Nat.mod_eq_of_lt (by omega)
    rw [hmod, ih (iter + 1) (by omega),
        drawRowBits_bitmap x0 (y0 + iter) line (List.range 8) (List.nodup_range 8)]
    unfold SCREEN_WIDTH SCREEN_HEIGHT
    by_cases hRow : ∃ b ∈ List.range 8, x0 + b < 64 ∧ y0 + iter < 32 ∧
        j = x0 + b + (y0 + iter) * 64 ∧ line &&& (128 >>> b) ≠ 0
    · obtain ⟨b1, hb1, hx1, hy1, hj1, hbit1⟩ := hRow
      have hb1lt : b1 < 8 := List.mem_range.mp hb1
      have hRest : ¬ ∃ r < rest.length, ∃ b < 8, x0 + b < 64 ∧
          y0 + (iter + 1 + r) < 32 ∧ j = x0 + b + (y0 + (iter + 1 + r)) * 64 ∧
          rest.getD r 0 &&& (128 >>> b) ≠ 0 := by
        rintro ⟨r, hr, b2, hb2, hx2, hy2, hj2, hbit2⟩
        omega
      have hAll : ∃ r < rest.length + 1, ∃ b < 8, x0 + b < 64 ∧
          y0 + (iter + r) < 32 ∧ j = x0 + b + (y0 + (iter + r)) * 64 ∧
          (line :: rest).getD r 0 &&& (128 >>> b) ≠ 0 :=
        ⟨0, by omega, b1, hb1lt, hx1, by omega, by omega, hbit1⟩
      rw [decide_eq_true ⟨b1, hb1, hx1, hy1, hj1, hbit1⟩, decide_eq_false hRest,
          decide_eq_true hAll, Bool.xor_false]
    · have hiff : (∃ r < rest.length + 1, ∃ b < 8, x0 + b < 64 ∧
          y0 + (iter + r) < 32 ∧ j = x0 + b + (y0 + (iter + r)) * 64 ∧
          (line :: rest).getD r 0 &&& (128 >>> b) ≠ 0)
          ↔ (∃ r < rest.length, ∃ b < 8, x0 + b < 64 ∧
          y0 + (iter + 1 + r) < 32 ∧ j = x0 + b + (y0 + (iter + 1 + r)) * 64 ∧
          rest.getD r 0 &&& (128 >>> b) ≠ 0) := by
        constructor
        · rintro ⟨r, hr, b, hb8, hx, hy, hj, hbit⟩
          match r with
          | 0 =>
            exact absurd ⟨b, List.mem_range.mpr hb8, hx, hy, hj, hbit⟩ hRow
          | r' + 1 =>
            exact ⟨r', by omega, b, hb8, hx, by omega, by omega, hbit⟩
        · rintro ⟨r', hr', b, hb8, hx, hy, hj, hbit⟩
          exact ⟨r' + 1, by omega, b, hb8, hx, by omega, by omega, hbit⟩
      rw [decide_eq_false hRow, Bool.xor_false]
      by_cases hRest : ∃ r < rest.length, ∃ b < 8, x0 + b < 64 ∧
          y0 + (iter + 1 + r) < 32 ∧ j = x0 + b + (y0 + (iter + 1 + r)) * 64 ∧
          rest.getD r 0 &&& (128 >>> b) ≠ 0
      · rw [decide_eq_true hRest, decide_eq_true (hiff.mpr hRest)]
      · rw [decide_eq_false hRest, decide_eq_false (fun hc => hRest (hiff.mp hc))]

/-- Collision output of the whole sprite pass: true iff the accumulator
started true or some in-bounds set sprite bit landed on a pixel lit in the
original grid. -/
lemma drawRowsAux_snd (x0 y0 : Nat) :
    ∀ (rows : List Nat) (iter : Nat), iter + rows.length ≤ 256 →
    ∀ (t : Tui) (acc : Bool),
    (Tui.drawRowsAux t x0 y0 iter rows acc).2 =
      (acc || decide (∃ r < rows.length, ∃ b < 8, x0 + b < SCREEN_WIDTH ∧
        y0 + (iter + r) < SCREEN_HEIGHT ∧
        rows.getD r 0 &&& (128 >>> b) ≠ 0 ∧
        t.pixel_bitmap (x0 + b + (y0 + (iter + r)) * SCREEN_WIDTH) = true)) := by
  intro rows
  induction rows with
  | nil =>
    intro iter _ t acc
    simp [Tui.drawRowsAux]
  | cons line rest ih =>
    intro iter hiter t acc
    simp only [Tui.drawRowsAux, List.length_cons] at hiter ⊢
    have hmod : iter % 256 = iter := Nat.mod_eq_of_lt (by omega)
    rw [hmod, ih (iter + 1) (by omega),
        drawRowBits_snd x0 (y0 + iter) line (List.range 8) (List.nodup_range 8)]
    unfold SCREEN_WIDTH SCREEN_HEIGHT
    have hpix : ∀ r < rest.length, ∀ b < 8,
        ((Tui.drawRowBits t x0 (y0 + iter) line (List.range 8) acc).1).pixel_bitmap
          (x0 + b + (y0 + (iter + 1 + r)) * 64)
          = t.pixel_bitmap (x0 + b + (y0 + (iter + 1 + r)) * 64) := by
      intro r hr b hb8
      rw [drawRowBits_bitmap x0 (y0 + iter) line (List.range 8) (List.nodup_range 8)]
      unfold SCREEN_WIDTH SCREEN_HEIGHT
      have : ¬ ∃ b' ∈ List.range 8, x0 + b' < 64 ∧ y0 + iter < 32 ∧
          x0 + b + (y0 + (iter + 1 + r)) * 64 = x0 + b' + (y0 + iter) * 64 ∧
          line &&& (128 >>> b') ≠ 0 := by
        rintro ⟨b', hb', hx', hy', hj', hbit'⟩
        have hb'8 : b' < 8 := List.mem_range.mp hb'
        omega
      rw [decide_eq_false this, Bool.xor_false]
    have hcong : (∃ r < rest.length, ∃ b < 8, x0 + b < 64 ∧
        y0 + (iter + 1 + r) < 32 ∧ rest.getD r 0 &&& (128 >>> b) ≠ 0 ∧
        ((Tui.drawRowBits t x0 (y0 + iter) line (List.range 8) acc).1).pixel_bitmap
          (x0 + b + (y0 + (iter + 1 + r)) * 64) = true)
        ↔ (∃ r < rest.length, ∃ b < 8, x0 + b < 64 ∧
        y0 + (iter + 1 + r) < 32 ∧ rest.getD r 0 &&& (128 >>> b) ≠ 0 ∧
        t.pixel_bitmap (x0 + b + (y0 + (iter + 1 + r)) * 64) = true) := by
      constructor
      · rintro ⟨r, hr, b, hb8, hx, hy, hbit, hp⟩
        exact ⟨r, hr, b, hb8, hx, hy, hbit, by rw [← hpix r hr b hb8]; exact hp⟩
      · rintro ⟨r, hr, b, hb8, hx, hy, hbit, hp⟩
        exact ⟨r, hr, b, hb8, hx, hy, hbit, by rw [hpix r hr b hb8]; exact hp⟩
    have hsplit : (∃ r < rest.length + 1, ∃ b < 8, x0 + b < 64 ∧
        y0 + (iter + r) < 32 ∧ (line :: rest).getD r 0 &&& (128 >>> b) ≠ 0 ∧
        t.pixel_bitmap (x0 + b + (y0 + (iter + r)) * 64) = true)
        ↔ ((∃ b ∈ List.range 8, x0 + b < 64 ∧ y0 + iter < 32 ∧
            line &&& (128 >>> b) ≠ 0 ∧
            t.pixel_bitmap (x0 + b + (y0 + iter) * 64) = true) ∨
           (∃ r < rest.length, ∃ b < 8, x0 + b < 64 ∧
            y0 + (iter + 1 + r) < 32 ∧ rest.getD r 0 &&& (128 >>> b) ≠ 0 ∧
            t.pixel_bitmap (x0 + b + (y0 + (iter + 1 + r)) * 64) = true)) := by
      constructor
      · rintro ⟨r, hr, b, hb8, hx, hy, hbit, hp⟩
        match r with
        | 0 =>
          exact Or.inl ⟨b, List.mem_range.mpr hb8, hx, hy,
            hbit, by rw [show y0 + iter = y0 + (iter + 0) from by omega]; exact hp⟩
        | r' + 1 =>
          refine Or.inr ⟨r', by omega, b, hb8, hx, by omega, hbit, ?_⟩
          rw [show y0 + (iter + 1 + r') = y0 + (iter + (r' + 1)) from by omega]
          exact hp
      · rintro (⟨b, hb, hx, hy, hbit, hp⟩ | ⟨r, hr, b, hb8, hx, hy, hbit, hp⟩)
        · exact ⟨0, by omega, b, List.mem_range.mp hb, hx, by omega,
            hbit, by rw [show y0 + (iter + 0) = y0 + iter from by omega]; exact hp⟩
        · refine ⟨r + 1, by omega, b, hb8, hx, by omega, hbit, ?_⟩
          rw [show y0 + (iter + (r + 1)) = y0 + (iter + 1 + r) from by omega]
          exact hp
    by_cases hRest : ∃ r < rest.length, ∃ b < 8, x0 + b < 64 ∧
        y0 + (iter + 1 + r) < 32 ∧ rest.getD r 0 &&& (128 >>> b) ≠ 0 ∧
        t.pixel_bitmap (x0 + b + (y0 + (iter + 1 + r)) * 64) = true
    · rw [decide_eq_true (hcong.mpr hRest), decide_eq_true (hsplit.mpr (Or.inr hRest))]
      simp
    · rw [decide_eq_false (fun hc => hRest (hcong.mp hc))]
      by_cases hRow : ∃ b ∈ List.range 8, x0 + b < 64 ∧ y0 + iter < 32 ∧
          line &&& (128 >>> b) ≠ 0 ∧ t.pixel_bitmap (x0 + b + (y0 + iter) * 64) = true
      · rw [decide_eq_true hRow, decide_eq_true (hsplit.mpr (Or.inl hRow))]
        simp
      · rw [decide_eq_false hRow,
            decide_eq_false (fun hc => (hsplit.mp hc).elim hRow hRest)]
        simp

/-! ### Claims -/

/-- Claim C1: the spec says `0x1nnn` jumps to the 12-bit operand `nnn`.
The code computes `self.pc = b | c | d` where `b`, `c`, `d` are the three
already-shifted-down 4-bit nibbles, so the target is the bitwise OR of three
values below 16, not `nnn`.  Evaluating one step on the word `0x1234` sets
the program counter to `2 ||| 3 ||| 4 = 0x7` instead of `0x234`. -/
theorem c1_jump_ignores_nnn_bug :
    (execute_inst (progState 0x12 0x34)).map Chip.pc = .ok 0x7 := by rfl

/-- Claim C2 counterexample: executing the raw word `0x5001` (top nibble 5,
non-zero low nibble) does not raise `IllegalInstruction`: the `0x5` arm
never inspects the low nibble, so the word runs as skip-if-registers-equal
and (the fresh registers being equal) advances the counter to `0x204`. -/
theorem c2_unknown_opcode_counterexample :
    (execute_inst (progState 0x50 0x01)).map Chip.pc = .ok 0x204 ∧
    execute_inst (progState 0x50 0x01) ≠ .error (.IllegalInstruction 0x5001) := by
  refine ⟨rfl, fun hcontra => ?_⟩
  have h1 : (execute_inst (progState 0x50 0x01)).map Chip.pc = Except.ok 0x204 := rfl
  rw [hcontra] at h1
  simp [Except.map] at h1

/-- Claim C3: the spec mandates a floor at 0 for the per-frame timer
decrement, but `run` executes `self.delay_timer -= 1; self.sound_timer -= 1`
unconditionally: starting from timers already at 0 (the initial state), one
frame tick wraps both timers to 255 (and a debug build panics) instead of
leaving them at 0. -/
theorem c3_timer_tick_underflow_bug :
    (frame_timer_tick (Chip.new 0x200)).delay_timer = 255 ∧
    (frame_timer_tick (Chip.new 0x200)).sound_timer = 255 := ⟨rfl, rfl⟩

/-- Claim C4: the spec says `0x7xkk` adds the immediate byte `kk` to
register x.  The code reads register `(b >> 8) as u8` — which is always
register 0, since `b` is a 4-bit nibble — and adds `(c | d) as u8`, the
bitwise OR of two nibbles rather than the byte `kk`.  Executing `0x7134`
with `V1 = 10`, `V0 = 0` stores `0 + (3 ||| 4) = 7` into `V1` instead of
the claimed `(10 + 0x34) % 256 = 62`. -/
theorem c4_add_immediate_bug :
    (execute_inst { progState 0x71 0x34 with
        registers := { (Chip.new 0x200).registers with v1 := 10 } }).map
      (fun s => s.registers.get_reg_v 0x1) = .ok 7 := by rfl

/-- Claim C5: the spec says `0xBnnn` jumps to `nnn + V0`.  The code executes
`self.pc = b | c | d + v0`, which both leaves the nibbles un-shifted and
groups as `b | c | (d + v0)`.  Executing `0xB234` with `V0 = 1` sets the
counter to `2 ||| 3 ||| (4 + 1) = 0x7` instead of `0x234 + 1 = 0x235`. -/
theorem c5_jump_offset_bug :
    (execute_inst { progState 0xB2 0x34 with
        registers := { (Chip.new 0x200).registers with v0 := 1 } }).map
      Chip.pc = .ok 0x7 := by rfl

/-- Claim C6: the spec says `0x3xkk` advances the counter by 4 when
register x equals the byte `kk`.  The code compares against `(c | d) as u8`,
the bitwise OR of the two operand nibbles, not the byte `kk = (c << 4) | d`.
Executing `0x3134` with `V1 = 0x34` compares `0x34` with `3 ||| 4 = 7`,
finds them different, and advances by only 2 (to `0x202`) where the claim
requires an advance of 4. -/
theorem c6_skip_immediate_bug :
    (execute_inst { progState 0x31 0x34 with
        registers := { (Chip.new 0x200).registers with v1 := 0x34 } }).map
      Chip.pc = .ok 0x202 := by rfl

/-- Claim C8: the spec says `0xFx55` bulk-stores registers 0..=x.  The
`0xF` family dispatches on `(c >> 4) | d`, where `c` is an already-shifted
4-bit nibble, so the key equals the low nibble `d` and can never reach the
`0x55` (or `0x65`) arm; executing `0xF055` (with `I = 0x300`) raises
`IllegalInstruction 0xF055` instead of storing `V0` and advancing `I`. -/
theorem c8_bulk_store_unreachable_bug :
    execute_inst { progState 0xF0 0x55 with
        registers := { (Chip.new 0x200).registers with i := 0x300 } }
      = .error (.IllegalInstruction 0xF055) := by rfl

/-- Claim C7: the blocking key-wait `0xFx0A` never advances the program
counter before completion.  With the word `0xFx0A` fetched: if no key press
has been observed (`keyboard = none`) and no release is pending
(`release_key_wait = none`), the step leaves the whole state — in
particular the counter — unchanged; once a pressed key `k` is observed its
value is stored in register x and the release latch is set, still without
advancing; while `k` is still held the state again stays unchanged; only
when `k` is observed released does the counter advance (by 2) and the latch
clear. -/
theorem c7_key_wait_blocking (s : Chip) (x k : Nat) (hx : x < 16)
    (hpc : s.pc + 1 < MEMSIZE)
    (h1 : s.memory s.pc = 240 + x) (h2 : s.memory (s.pc + 1) = 0x0A) :
    (s.release_key_wait = none ∧ s.keyboard = none → execute_inst s = .ok s) ∧
    (s.release_key_wait = none ∧ s.keyboard = some k →
      execute_inst s = .ok { s with registers := s.registers.set_reg_v x k,
                                    release_key_wait := some k }) ∧
    (s.release_key_wait = some k ∧ s.keys k = true → execute_inst s = .ok s) ∧
    (s.release_key_wait = some k ∧ s.keys k = false →
      execute_inst s = .ok { s with release_key_wait := none, pc := s.pc + 2 }) := by
  rw [execute_inst_eq s hpc (by rw [h2]; omega), h1, h2]
  unfold MEMSIZE at hpc
  have hxm : x % 256 = x := Nat.mod_eq_of_lt (by omega)
  have hpcm : (s.pc + 2) % 65536 = s.pc + 2 := Nat.mod_eq_of_lt (by omega)
  simp only [exec_word, decode_a, decode_b, decode_c, decode_d]
  have ha : ((240 + x) * 256 + 10) / 4096 % 16 = 15 := by omega
  have hb : ((240 + x) * 256 + 10) / 256 % 16 = x := by omega
  have hc : ((240 + x) * 256 + 10) / 16 % 16 = 0 := by omega
  have hd : ((240 + x) * 256 + 10) % 16 = 10 := by omega
  rw [ha, hb, hc, hd, hxm, hpcm]
  norm_num
  refine ⟨?_, ?_, ?_, ?_⟩ <;> intro hr hk <;> rw [hr] <;> simp [hk] <;> rfl

/-- Witness for C7: a concrete machine waiting on the release of key 5
(word `0xF30A`, nobody holding the key) clears the latch and advances the
counter to `0x202` in one step. -/
theorem c7_key_wait_blocking_witness :
    (3 : Nat) < 16 ∧
    execute_inst { progState 0xF3 0x0A with release_key_wait := some 5 } =
      .ok { progState 0xF3 0x0A with release_key_wait := none, pc := 0x202 } := by
  refine ⟨by norm_num, ?_⟩
  have h := c7_key_wait_blocking { progState 0xF3 0x0A with release_key_wait := some 5 }
    3 5 (by norm_num) (by decide) (by decide) (by decide)
  exact h.2.2.2 ⟨rfl, rfl⟩

/-- Claim C10: in each flag-producing ALU instruction `0x8xy4/5/6/7/E`, the
arithmetic result is written to register x first and the flag to register
`0xF` afterwards.  Consequently register `0xF` finally holds the flag value
(computed from the pre-instruction register contents) in every case — in
particular when `x = 0xF`, where the arithmetic result is overwritten — and
for `x ≠ 0xF` register x finally holds the arithmetic result. -/
theorem c10_alu_flag_order (s : Chip) (x y d : Nat) (hx : x < 16) (hy : y < 16)
    (hd : d = 4 ∨ d = 5 ∨ d = 6 ∨ d = 7 ∨ d = 14)
    (hpc : s.pc + 1 < MEMSIZE)
    (h1 : s.memory s.pc = 128 + x) (h2 : s.memory (s.pc + 1) = 16 * y + d) :
    (execute_inst s).map (fun s' => s'.registers.get_reg_v 0xF)
      = .ok (alu_flag d (s.registers.get_reg_v x) (s.registers.get_reg_v y)) ∧
    (x ≠ 0xF → (execute_inst s).map (fun s' => s'.registers.get_reg_v x)
      = .ok (alu_res d (s.registers.get_reg_v x) (s.registers.get_reg_v y))) := by
  have hd16 : d < 16 := by omega
  rw [execute_inst_eq s hpc (by rw [h2]; omega), h1, h2]
  have hxm : x % 256 = x := Nat.mod_eq_of_lt (by omega)
  have hym : y % 256 = y := Nat.mod_eq_of_lt (by omega)
  simp only [exec_word, decode_a, decode_b, decode_c, decode_d]
  have ha : ((128 + x) * 256 + (16 * y + d)) / 4096 % 16 = 8 := by omega
  have hb : ((128 + x) * 256 + (16 * y + d)) / 256 % 16 = x := by omega
  have hc : ((128 + x) * 256 + (16 * y + d)) / 16 % 16 = y := by omega
  have hdn : ((128 + x) * 256 + (16 * y + d)) % 16 = d := by omega
  rw [ha, hb, hc, hdn, hxm, hym]
  rcases hd with h | h | h | h | h <;> subst h <;>
    norm_num [Except.map, pure, Except.pure, alu_res, alu_flag] <;>
    refine ⟨?_, ?_⟩ <;>
    first
      | (rw [Register.get_set _ 15 15 _ (by norm_num) (by norm_num), if_pos rfl])
      | (intro hxf
         rw [Register.get_set _ 15 x _ (by norm_num) (by omega), if_neg hxf,
             Register.get_set _ x x _ (by omega) (by omega), if_pos rfl])

/-- Witness for C10: executing `0x8124` with `V1 = 200`, `V2 = 100` leaves
the carry flag `1` in register `0xF` and the wrapped sum `44` in `V1`. -/
theorem c10_alu_flag_order_witness :
    (1 : Nat) < 16 ∧
    ((execute_inst { progState 0x81 0x24 with
          registers := { (Chip.new 0x200).registers with v1 := 200, v2 := 100 } }).map
        (fun s' => s'.registers.get_reg_v 0xF)
      = .ok (alu_flag 4
          ({ progState 0x81 0x24 with
              registers := { (Chip.new 0x200).registers with v1 := 200, v2 := 100 } : Chip}.registers.get_reg_v 1)
          ({ progState 0x81 0x24 with
              registers := { (Chip.new 0x200).registers with v1 := 200, v2 := 100 } : Chip}.registers.get_reg_v 2)) ∧
    ((1 : Nat) ≠ 0xF → (execute_inst { progState 0x81 0x24 with
          registers := { (Chip.new 0x200).registers with v1 := 200, v2 := 100 } }).map
        (fun s' => s'.registers.get_reg_v 1)
      = .ok (alu_res 4
          ({ progState 0x81 0x24 with
              registers := { (Chip.new 0x200).registers with v1 := 200, v2 := 100 } : Chip}.registers.get_reg_v 1)
          ({ progState 0x81 0x24 with
              registers := { (Chip.new 0x200).registers with v1 := 200, v2 := 100 } : Chip}.registers.get_reg_v 2)))) :=
  ⟨by norm_num,
   c10_alu_flag_order
     { progState 0x81 0x24 with
         registers := { (Chip.new 0x200).registers with v1 := 200, v2 := 100 } }
     1 2 4 (by norm_num) (by norm_num) (Or.inl rfl) (by decide) (by decide) (by decide)⟩

/-- Claim C2, amended: an instruction word with top nibble `0x5` is decoded
by family only and executed as skip-if-registers-equal regardless of its low
nibble (in particular `0x5001` does not error and advances the counter by 2
or 4), while a genuinely unmatched sub-case inside a dispatched family —
here any `0x8xy8` word — raises a fatal `IllegalInstruction` error carrying
the raw instruction word. -/
theorem c2_unknown_opcode_amended (s t : Chip) (x y n u v : Nat)
    (hx : x < 16) (hy : y < 16) (hn : n < 16)
    (hspc : s.pc + 1 < MEMSIZE)
    (h1 : s.memory s.pc = 80 + x) (h2 : s.memory (s.pc + 1) = 16 * y + n)
    (hu : u < 16) (hv : v < 16)
    (htpc : t.pc + 1 < MEMSIZE)
    (g1 : t.memory t.pc = 128 + u) (g2 : t.memory (t.pc + 1) = 16 * v + 8) :
    (execute_inst s).map Chip.pc =
      .ok (if s.registers.get_reg_v x = s.registers.get_reg_v y
           then s.pc + 4 else s.pc + 2) ∧
    execute_inst t = .error (.IllegalInstruction ((128 + u) * 256 + (16 * v + 8))) := by
  unfold MEMSIZE at hspc htpc
  constructor
  · rw [execute_inst_eq s (by unfold MEMSIZE; omega) (by rw [h2]; omega), h1, h2]
    have hxm : x % 256 = x := Nat.mod_eq_of_lt (by omega)
    have hym : y % 256 = y := Nat.mod_eq_of_lt (by omega)
    simp only [exec_word, decode_a, decode_b, decode_c, decode_d]
    have ha : ((80 + x) * 256 + (16 * y + n)) / 4096 % 16 = 5 := by omega
    have hb : ((80 + x) * 256 + (16 * y + n)) / 256 % 16 = x := by omega
    have hc : ((80 + x) * 256 + (16 * y + n)) / 16 % 16 = y := by omega
    rw [ha, hb, hc, hxm, hym]
    by_cases hcond : s.registers.get_reg_v x = s.registers.get_reg_v y <;>
      simp [hcond, Except.map, pure, Except.pure] <;> omega
  · rw [execute_inst_eq t (by unfold MEMSIZE; omega) (by rw [g2]; omega), g1, g2]
    simp only [exec_word, decode_a, decode_b, decode_c, decode_d]
    have ha : ((128 + u) * 256 + (16 * v + 8)) / 4096 % 16 = 8 := by omega
    have hd : ((128 + u) * 256 + (16 * v + 8)) % 16 = 8 := by omega
    rw [ha, hd]
    norm_num
    rfl

/-- Witness for the amended C2: `0x5001` on a fresh machine (equal
registers) advances the counter to `0x204`, and `0x8008` errors with
`IllegalInstruction 0x8008`. -/
theorem c2_unknown_opcode_amended_witness :
    (0 : Nat) < 16 ∧
    ((execute_inst (progState 0x50 0x01)).map Chip.pc =
      .ok (if (progState 0x50 0x01).registers.get_reg_v 0 =
              (progState 0x50 0x01).registers.get_reg_v 0
           then (progState 0x50 0x01).pc + 4 else (progState 0x50 0x01).pc + 2) ∧
     execute_inst (progState 0x80 0x08) =
       .error (.IllegalInstruction ((128 + 0) * 256 + (16 * 0 + 8)))) :=
  ⟨by norm_num,
   c2_unknown_opcode_amended (progState 0x50 0x01) (progState 0x80 0x08) 0 0 1 0 0
     (by norm_num) (by norm_num) (by norm_num) (by decide) (by decide) (by decide)
     (by norm_num) (by norm_num) (by decide) (by decide) (by decide)⟩

/-- Claim C9 counterexample: the spec says each sprite bit lands at the
per-bit wrapped coordinates `((x + bit) mod width, (y + row) mod height)`.
Drawing the single row `0xFF` at `(63, 0)` on an empty screen would then set
pixel `((63 + 1) mod 64, 0) = (0, 0)`; the implementation instead clips
every bit past the right edge, so only pixel `(63, 0)` is set and pixel
`(0, 0)` stays unset. -/
theorem c9_draw_wrap_counterexample :
    (Tui.new.draw_sprite 63 0 [0xFF]).1.pixel_bitmap ((63 + 1) % 64 + 0 * 64) = false ∧
    (Tui.new.draw_sprite 63 0 [0xFF]).1.pixel_bitmap (63 + 0 * 64) = true := by
  constructor <;> rfl

/-- Claim C9, amended: `draw_sprite` wraps only the starting coordinate
(`x mod width`, `y mod height`); each bit of each row is then XOR-composited
at the un-wrapped coordinates `(x0 + bit, y0 + row)`, bits falling past the
right or bottom screen edge being clipped (not drawn); the return value is
true iff some previously-set pixel became unset.  (The sprite length is
bounded by 15, the most the `0xDxyn` instruction can supply.) -/
theorem c9_draw_clip_amended (t : Tui) (x y : Nat) (rows : List Nat)
    (hlen : rows.length ≤ 15) (px py : Nat)
    (hpx : px < SCREEN_WIDTH) (hpy : py < SCREEN_HEIGHT) :
    ((t.draw_sprite x y rows).1.pixel_bitmap (px + py * SCREEN_WIDTH)
        = xor (t.pixel_bitmap (px + py * SCREEN_WIDTH))
              (spriteBit (x % SCREEN_WIDTH) (y % SCREEN_HEIGHT) rows px py)) ∧
    ((t.draw_sprite x y rows).2 = true ↔
      ∃ i < SCREEN_WIDTH, ∃ jj < SCREEN_HEIGHT,
        t.pixel_bitmap (i + jj * SCREEN_WIDTH) = true ∧
        (t.draw_sprite x y rows).1.pixel_bitmap (i + jj * SCREEN_WIDTH) = false) := by
  have hWH : SCREEN_WIDTH = 64 ∧ SCREEN_HEIGHT = 32 := ⟨rfl, rfl⟩
  obtain ⟨hW, hH⟩ := hWH
  have hx0 : x % SCREEN_WIDTH < 64 := by rw [hW]; omega
  have hy0 : y % SCREEN_HEIGHT < 32 := by rw [hH]; omega
  rw [hW] at hpx
  rw [hH] at hpy
  unfold Tui.draw_sprite
  constructor
  · rw [drawRowsAux_bitmap (x % SCREEN_WIDTH) (y % SCREEN_HEIGHT) rows 0
        (by omega) t false (px + py * SCREEN_WIDTH)]
    have hsb : spriteBit (x % SCREEN_WIDTH) (y % SCREEN_HEIGHT) rows px py = true ↔
        (x % SCREEN_WIDTH ≤ px ∧ px < x % SCREEN_WIDTH + 8 ∧
         y % SCREEN_HEIGHT ≤ py ∧ py < y % SCREEN_HEIGHT + rows.length ∧
         rows.getD (py - y % SCREEN_HEIGHT) 0 &&&
           (128 >>> (px - x % SCREEN_WIDTH)) ≠ 0) := by
      simp [spriteBit, Bool.and_eq_true, decide_eq_true_eq, bne_iff_ne, and_assoc]
    have hiff : (∃ r < rows.length, ∃ b < 8, x % SCREEN_WIDTH + b < SCREEN_WIDTH ∧
        y % SCREEN_HEIGHT + (0 + r) < SCREEN_HEIGHT ∧
        px + py * SCREEN_WIDTH =
          x % SCREEN_WIDTH + b + (y % SCREEN_HEIGHT + (0 + r)) * SCREEN_WIDTH ∧
        rows.getD r 0 &&& (128 >>> b) ≠ 0)
        ↔ (x % SCREEN_WIDTH ≤ px ∧ px < x % SCREEN_WIDTH + 8 ∧
         y % SCREEN_HEIGHT ≤ py ∧ py < y % SCREEN_HEIGHT + rows.length ∧
         rows.getD (py - y % SCREEN_HEIGHT) 0 &&&
           (128 >>> (px - x % SCREEN_WIDTH)) ≠ 0) := by
      rw [hW, hH]
      constructor
      · rintro ⟨r, hr, b, hb8, hxb, hyr, hj, hbit⟩
        have hpx' : px = x % 64 + b := by omega
        have hpy' : py = y % 32 + (0 + r) := by omega
        refine ⟨by omega, by omega, by omega, by omega, ?_⟩
        rw [show py - y % 32 = r from by omega, show px - x % 64 = b from by omega]
        exact hbit
      · rintro ⟨h1, h2, h3, h4, hbit⟩
        refine ⟨py - y % 32, by omega, px - x % 64, by omega, by omega, by omega,
          by omega, hbit⟩
    cases hsbv : spriteBit (x % SCREEN_WIDTH) (y % SCREEN_HEIGHT) rows px py
    · rw [decide_eq_false (fun hc => by
        have := hsb.mpr (hiff.mp hc)
        rw [hsbv] at this
        exact Bool.false_ne_true this)]
    · rw [decide_eq_true (hiff.mpr (hsb.mp hsbv))]
  · rw [drawRowsAux_snd (x % SCREEN_WIDTH) (y % SCREEN_HEIGHT) rows 0
        (by omega) t false, Bool.false_or, decide_eq_true_eq]
    constructor
    · rintro ⟨r, hr, b, hb8, hxb, hyr, hbit, hp⟩
      refine ⟨x % SCREEN_WIDTH + b, hxb, y % SCREEN_HEIGHT + (0 + r), hyr, hp, ?_⟩
      rw [drawRowsAux_bitmap (x % SCREEN_WIDTH) (y % SCREEN_HEIGHT) rows 0
          (by omega) t false]
      rw [decide_eq_true ⟨r, hr, b, hb8, hxb, hyr, rfl, hbit⟩, hp]
      rfl
    · rintro ⟨i, hi, jj, hjj, hbefore, hafter⟩
      rw [drawRowsAux_bitmap (x % SCREEN_WIDTH) (y % SCREEN_HEIGHT) rows 0
          (by omega) t false, hbefore] at hafter
      have hD : decide (∃ r < rows.length, ∃ b < 8,
          x % SCREEN_WIDTH + b < SCREEN_WIDTH ∧
          y % SCREEN_HEIGHT + (0 + r) < SCREEN_HEIGHT ∧
          i + jj * SCREEN_WIDTH =
            x % SCREEN_WIDTH + b + (y % SCREEN_HEIGHT + (0 + r)) * SCREEN_WIDTH ∧
          rows.getD r 0 &&& (128 >>> b) ≠ 0) = true := by
        cases hDv : decide (∃ r < rows.length, ∃ b < 8,
            x % SCREEN_WIDTH + b < SCREEN_WIDTH ∧
            y % SCREEN_HEIGHT + (0 + r) < SCREEN_HEIGHT ∧
            i + jj * SCREEN_WIDTH =
              x % SCREEN_WIDTH + b + (y % SCREEN_HEIGHT + (0 + r)) * SCREEN_WIDTH ∧
            rows.getD r 0 &&& (128 >>> b) ≠ 0)
        · rw [hDv] at hafter
          exact absurd hafter (by simp)
        · rfl
      obtain ⟨r, hr, b, hb8, hxb, hyr, hj, hbit⟩ := of_decide_eq_true hD
      refine ⟨r, hr, b, hb8, hxb, hyr, hbit, ?_⟩
      rw [show x % SCREEN_WIDTH + b + (y % SCREEN_HEIGHT + (0 + r)) * SCREEN_WIDTH
          = i + jj * SCREEN_WIDTH from hj.symm]
      exact hbefore

/-- Witness for the amended C9: drawing `[0xFF]` at `(63, 0)` on an empty
screen sets pixel `(63, 0)` (XOR with the sprite bit there), and reports no
collision. -/
theorem c9_draw_clip_amended_witness :
    (Tui.new.draw_sprite 63 0 [0xFF]).1.pixel_bitmap (63 + 0 * SCREEN_WIDTH)
        = xor (Tui.new.pixel_bitmap (63 + 0 * SCREEN_WIDTH))
            (spriteBit (63 % SCREEN_WIDTH) (0 % SCREEN_HEIGHT) [0xFF] 63 0) ∧
    ((Tui.new.draw_sprite 63 0 [0xFF]).2 = true ↔
      ∃ i < SCREEN_WIDTH, ∃ jj < SCREEN_HEIGHT,
        Tui.new.pixel_bitmap (i + jj * SCREEN_WIDTH) = true ∧
        (Tui.new.draw_sprite 63 0 [0xFF]).1.pixel_bitmap (i + jj * SCREEN_WIDTH)
          = false) :=
  c9_draw_clip_amended Tui.new 63 0 [0xFF] (by norm_num) 63 0
    (by norm_num [SCREEN_WIDTH]) (by norm_num [SCREEN_HEIGHT])

end Chip8